import Mathlib

/-!
Verification of the core behavior of yandex_reviews_to_md.py.

Shallow embedding notes.  Python strings are modelled as Lean String
values over their character lists; the Unicode digit and whitespace
classes are modelled by the ASCII predicates Char.isDigit and
Char.isWhitespace.  The regular expression search
  re.search with pattern /(\d{6,})(?:/|\?|$)
is modelled by a left-to-right scanner over start positions.  At a given
start position the engine requires the literal slash, then a greedy run
of digits, then the alternation: a slash, a question mark, or the dollar
anchor, which in Python without the multiline flag matches at the end of
the input and also just before a newline that ends the input.
Backtracking on the greedy run can never succeed, because a shortened
run is followed by a digit, which is not a slash, not a question mark,
not a newline and not the end of the input, so the scanner only needs to
test the maximal digit run at each position.

Date rendering, datetime.fromtimestamp followed by strftime with the
pattern for day, month and full year, is modelled in civil (UTC) time:
the local timezone of the host is modelled as UTC.  The float company
rating is modelled by the string it prints as, since the renderer only
ever interpolates it.

Console output (tqdm widget, logging, spinner threads) is modelled
separately from the returned document: the rendering loop returns the
markdown chunks together with the list of verbose log lines, and the
document is the intercalation of the chunks alone, exactly as the md
list in the source.  The filesystem needed by _validate_output is an
explicit state: a current directory, a home directory and the set of
existing directories.
-/

/-- Python str strip over the ASCII whitespace class, at the character
list level. -/
def trimList (l : List Char) : List Char :=
  ((l.dropWhile Char.isWhitespace).reverse.dropWhile Char.isWhitespace).reverse

/-- Python str strip, modelled on Lean strings. -/
def pyStrip (s : String) : String :=
  String.mk (trimList s.data)

/-- Python str of an optional string: None prints as the four letter
word None, a present string prints as itself. -/
def pyStr (o : Option String) : String :=
  match o with
  | none => "None"
  | some s => s

/-- Two digit zero padding, as in strftime day and month fields. -/
def pad2 (n : Nat) : String :=
  if n < 10 then "0" ++ toString n else toString n

/-- Civil date from a day count since the Unix epoch (the standard
era-based conversion), returning year, month and day. -/
def civilFromDays (z : Int) : Int × Nat × Nat :=
  let z' := z + 719468
  let era := z'.ediv 146097
  let doe := (z'.emod 146097).toNat
  let yoe := (doe - doe / 1460 + doe / 36524 - doe / 146096) / 365
  let y := (yoe : Int) + era * 400
  let doy := doe - (365 * yoe + yoe / 4 - yoe / 100)
  let mp := (5 * doy + 2) / 153
  let d := doy - (153 * mp + 2) / 5 + 1
  let m := if mp < 10 then mp + 3 else mp - 9
  (if mp < 10 then y else y + 1, m, d)

/-- Model of datetime.fromtimestamp(ts).strftime with day, month and
four digit year separated by dots; local time is modelled as UTC. -/
def fmtDate (ts : Int) : String :=
  let days := ts.ediv 86400
  let c := civilFromDays days
  pad2 c.2.2 ++ "." ++ pad2 c.2.1 ++ "." ++ toString c.1

/-- Decimal value of a digit string, the model of Python int() on a
string of decimal digits. -/
def parseDigits (l : List Char) : Nat :=
  l.foldl (fun acc c => acc * 10 + (c.toNat - 48)) 0

/-- Python str isdigit over the ASCII model: nonempty and every
character a decimal digit. -/
def py_isdigit (s : String) : Bool :=
  !s.data.isEmpty && s.data.all Char.isDigit

/-- Delimiter test after the digit run, the alternation group of the
pattern: a slash, a question mark, or the dollar anchor.  The dollar
anchor accepts the end of the input and also a newline that is the very
last character of the input, as the Python engine does without the
multiline flag. -/
def boundaryOk : List Char → Bool
  | [] => true
  | c :: rest => c == '/' || c == '?' || (c == '\n' && rest.isEmpty)

/-- Attempt to match the pattern at the start of the given suffix: a
slash, then a greedy run of at least six digits, then a delimiter.
Returns the digit run of the capture group on success. -/
def tryAt : List Char → Option (List Char)
  | [] => none
  | c :: rest =>
      if c = '/' ∧ 6 ≤ (rest.takeWhile Char.isDigit).length ∧
          boundaryOk (rest.dropWhile Char.isDigit) = true
      then some (rest.takeWhile Char.isDigit)
      else none

/-- Left-to-right search over start positions, the model of re.search:
the match at the leftmost succeeding position wins. -/
def scanFirst : List Char → Option (List Char)
  | [] => none
  | c :: rest =>
      match tryAt (c :: rest) with
      | some ds => some ds
      | none => scanFirst rest

/-- The fixed message of the ValueError raised by extract_id. -/
def invalidIdMsg : String :=
  "Не удалось определить ID компании из переданной строки."

/-- Model of extract_id: a purely numeric string parses directly,
otherwise the first regex match wins, otherwise the fixed ValueError. -/
def extract_id (s : String) : Except String Nat :=
  if py_isdigit s = true then Except.ok (parseDigits s.data)
  else
    match scanFirst s.data with
    | some ds => Except.ok (parseDigits ds)
    | none => Except.error invalidIdMsg

/-- Declarative reading of a pattern match at position i of the
character list: a slash at i, then a run of at least six digits, then
the end of the input, a slash, a question mark, or a newline that ends
the input, matching the dollar anchor of the Python engine. -/
def goodAt (cs : List Char) (i : Nat) : Prop :=
  ∃ ds rest, cs.drop i = '/' :: (ds ++ rest) ∧ 6 ≤ ds.length ∧
    (∀ c ∈ ds, Char.isDigit c = true) ∧
    (rest = [] ∨ ∃ c' rest', rest = c' :: rest' ∧
      (c' = '/' ∨ c' = '?' ∨ (c' = '\n' ∧ rest' = [])))

/-- Company summary as read from the parse result dictionary.  The
rating field of the source is a float that is only ever interpolated
into the header, so it is modelled by its printed form. -/
structure Company where
  name : String
  rating : String
  count_rating : Nat
deriving DecidableEq

/-- One review record, with the keys produced by the patched parser:
author name, icon link, publication timestamp, body text, star rating
and the optional company reply. -/
structure Review where
  name : Option String
  icon_href : Option String
  date : Int
  text : Option String
  stars : Int
  answer : Option String
deriving DecidableEq

/-- The dictionary returned by YandexParser.parse, restricted to the two
keys build_markdown reads. -/
structure ParseData where
  company_info : Company
  company_reviews : List Review
deriving DecidableEq

/-- The explicit no-text placeholder of the renderer. -/
def noText : String :=
  "_(текст отсутствует)_"

/-- Review body chunk: the text value defaulted through the Python or
chain, stripped, with the placeholder replacing the empty result. -/
def bodyOf (t : Option String) : String :=
  let s := pyStrip (t.getD "")
  if s = "" then noText else s

/-- Numbered review subheading chunk. -/
def headingChunk (idx : Nat) (r : Review) : String :=
  "### " ++ (toString idx ++ (". " ++ (pyStr r.name ++ (" — " ++ fmtDate r.date))))

/-- Star rating chunk of one review. -/
def ratingChunk (r : Review) : String :=
  "**Оценка:** " ++ (toString r.stars ++ "/5\n")

/-- Company reply chunk list: present exactly when the answer value is
truthy, that is a nonempty string. -/
def replyPart (a : Option String) : List String :=
  match a with
  | none => []
  | some s => if s = "" then [] else ["\n> **Ответ компании:** " ++ pyStrip s]

/-- The chunks appended for one enumerated review: subheading, rating,
body, optional reply, separator. -/
def reviewChunks (p : Nat × Review) : List String :=
  headingChunk p.1 p.2 :: ratingChunk p.2 :: bodyOf p.2.text ::
    (replyPart p.2.answer ++ ["\n---\n"])

/-- Header chunks: title, rating line, separator, reviews heading. -/
def headerChunks (c : Company) : List String :=
  ["# " ++ (c.name ++ "\n"),
   "**Рейтинг:** " ++ (c.rating ++ ("/5  \n**Всего голосов:** " ++ (toString c.count_rating ++ "\n"))),
   "\n---\n",
   "## Отзывы\n"]

/-- One verbose progress log line of the rendering loop. -/
def logLine (idx n : Nat) : String :=
  "  ...сформировано " ++ (toString idx ++ ("/" ++ toString n))

/-- The rendering loop over the enumerated reviews.  First component:
the markdown chunks appended to the md list.  Second component: the log
lines emitted when verbose is set, every twenty fifth item.  The tqdm
wrapper of the source only decorates the iterator and yields the same
enumerated pairs, so it does not appear in the chunk computation. -/
def renderLoop (verbose : Bool) (n : Nat) : List (Nat × Review) → List String × List String
  | [] => ([], [])
  | p :: rest =>
      let r := renderLoop verbose n rest
      (reviewChunks p ++ r.1,
       (if verbose = true ∧ p.1 % 25 = 0 then [logLine p.1 n] else []) ++ r.2)

/-- All chunks of the md list of build_markdown, in order. -/
def mdChunks (d : ParseData) (verbose : Bool) : List String :=
  headerChunks d.company_info ++
    (renderLoop verbose d.company_reviews.length (List.enumFrom 1 d.company_reviews)).1

/-- Model of build_markdown: the join of the md chunks with newline. -/
def build_markdown (d : ParseData) (verbose : Bool) : String :=
  String.intercalate "\n" (mdChunks d verbose)

/-- A chunk is a numbered review subheading when it starts with three
hashes and a space. -/
def isSubheading (s : String) : Bool :=
  s.data.take 4 == ['#', '#', '#', ' ']

/-- Filesystem state for the output resolver: current directory, home
directory and the set of existing directories, each directory an
absolute path given by its segment list. -/
structure FS where
  cwd : List String
  home : List String
  dirs : List (List String)
deriving DecidableEq

/-- Existing directory test, the model of Path.is_dir and of
Path.exists for parents. -/
def isDir (fs : FS) (p : List String) : Bool :=
  decide (p ∈ fs.dirs)

/-- Split a character list at a separator character. -/
def splitSeg (sep : Char) : List Char → List (List Char)
  | [] => [[]]
  | c :: t =>
      let r := splitSeg sep t
      if c = sep then [] :: r
      else
        match r with
        | [] => [[c]]
        | h :: t' => (c :: h) :: t'

/-- Nonempty path segments of a path string. -/
def segmentsOf (s : String) : List String :=
  ((splitSeg '/' s.data).map String.mk).filter (fun x => x ≠ "")

/-- Whether a path string is absolute, that is starts with a slash. -/
def isAbs (s : String) : Bool :=
  match s.data with
  | '/' :: _ => true
  | _ => false

/-- Parse a path string into its absoluteness flag and segments.
Repeated separators collapse, as they do in pathlib. -/
def pyPath (s : String) : Bool × List String :=
  (isAbs s, segmentsOf s)

/-- Model of Path.expanduser: a leading tilde segment of a relative
path is replaced by the home directory. -/
def expanduser (fs : FS) (p : Bool × List String) : Bool × List String :=
  match p with
  | (true, segs) => (true, segs)
  | (false, segs) =>
      match segs with
      | "~" :: rest => (true, fs.home ++ rest)
      | _ => (false, segs)

/-- Model of Path.absolute: a relative path is appended to the current
directory. -/
def absolutize (fs : FS) (p : Bool × List String) : List String :=
  match p with
  | (true, segs) => segs
  | (false, segs) => fs.cwd ++ segs

/-- The expanded and absolutized form of a path argument. -/
def resolveArg (fs : FS) (s : String) : List String :=
  absolutize fs (expanduser fs (pyPath s))

/-- Default output file name for a company id. -/
def fileName (company_id : Nat) : String :=
  "reviews_" ++ (toString company_id ++ ".md")

/-- All prefixes of a segment list, the directories that a recursive
mkdir of that path brings into existence. -/
def prefixesOf (q : List String) : List (List String) :=
  (List.range (q.length + 1)).map (fun n => q.take n)

/-- Model of Path.mkdir with parents and exist_ok: the directory and
all its ancestors now exist. -/
def mkdirParents (fs : FS) (q : List String) : FS :=
  FS.mk fs.cwd fs.home (fs.dirs ++ prefixesOf q)

/-- Model of _validate_output.  A falsy argument, absent or empty,
yields the default file in the current directory with no directory
creation; otherwise the argument is expanded and absolutized, an
existing directory gets the default file name joined on, and a missing
parent directory is created recursively. -/
def _validate_output (path_str : Option String) (company_id : Nat) (fs : FS) :
    List String × FS :=
  match path_str with
  | none => (fs.cwd ++ [fileName company_id], fs)
  | some s =>
      if s = "" then (fs.cwd ++ [fileName company_id], fs)
      else
        let p := resolveArg fs s
        let p2 := if isDir fs p = true then p ++ [fileName company_id] else p
        let fs2 := if isDir fs p2.dropLast = true then fs else mkdirParents fs p2.dropLast
        (p2, fs2)

/-- Outcome of the blocking parse call in main: either the parsed data
or a user interrupt raised during the call. -/
inductive FetchResult where
  | interrupted : FetchResult
  | ok : ParseData → FetchResult
deriving DecidableEq

/-- Observable outcome of a run of main after the id was extracted: the
exit message of sys.exit if any, the file written with its content if
any, and the filesystem state afterwards. -/
structure RunOutcome where
  exitMessage : Option String
  written : Option (List String × String)
  fsAfter : FS
deriving DecidableEq

/-- The cancellation message of the interrupt handler in main. -/
def cancelMsg : String :=
  "\n[-] Операция прервана пользователем (Ctrl+C)"

/-- Model of main from the parse call on.  On interrupt the except
branch stops the animation, a console-only effect, and exits with the
cancellation message before any rendering or writing; on success the
document is rendered, the output path resolved and the file written. -/
def runAfterExtract (fetch : FetchResult) (outputArg : Option String)
    (verbose : Bool) (company_id : Nat) (fs : FS) : RunOutcome :=
  match fetch with
  | FetchResult.interrupted => RunOutcome.mk (some cancelMsg) none fs
  | FetchResult.ok data =>
      let md := build_markdown data verbose
      let r := _validate_output outputArg company_id fs
      RunOutcome.mk none (some (r.1, md)) r.2

/-- Contiguous occurrence of a pattern inside a character list. -/
def hasSub (l pat : List Char) : Bool :=
  match l with
  | [] => pat.isEmpty
  | _ :: t => pat.isPrefixOf l || hasSub t pat

/-- Decidable equality for the result type of extract_id, so that
concrete runs can be checked by evaluation. -/
instance exceptStringNatDecEq : DecidableEq (Except String Nat) := fun a b =>
  match a, b with
  | Except.ok x, Except.ok y =>
      if h : x = y then isTrue (by rw [h])
      else isFalse (fun hc => h (Except.ok.inj hc))
  | Except.error x, Except.error y =>
      if h : x = y then isTrue (by rw [h])
      else isFalse (fun hc => h (Except.error.inj hc))
  | Except.ok _, Except.error _ => isFalse (fun hc => Except.noConfusion hc)
  | Except.error _, Except.ok _ => isFalse (fun hc => Except.noConfusion hc)

/-- Degenerate text forms that all strip to the empty string: absent,
empty, or whitespace only. -/
def degenText (t : Option String) : Prop :=
  t = none ∨ ∃ s, t = some s ∧ ∀ c ∈ s.data, Char.isWhitespace c = true

/-- Degenerate reply forms that are falsy: absent or empty. -/
def degenAns (a : Option String) : Prop :=
  a = none ∨ a = some ""

/-- Two reviews agree on every rendered field, except that the text
fields may both be degenerate and the reply fields may both be
degenerate; the icon field is never rendered and is unconstrained. -/
def eqvReview (r1 r2 : Review) : Prop :=
  r1.name = r2.name ∧ r1.date = r2.date ∧ r1.stars = r2.stars ∧
  (r1.text = r2.text ∨ (degenText r1.text ∧ degenText r2.text)) ∧
  (r1.answer = r2.answer ∨ (degenAns r1.answer ∧ degenAns r2.answer))

/-- takeWhile and dropWhile on a run of satisfying characters followed
by a suffix whose head fails the predicate split exactly at the run. -/
theorem takeWhile_append_all (p : Char → Bool) :
    ∀ (ds rest : List Char), (∀ c ∈ ds, p c = true) →
      (∀ c, rest.head? = some c → p c = false) →
      (ds ++ rest).takeWhile p = ds ∧ (ds ++ rest).dropWhile p = rest := by
  intro ds
  induction ds with
  | nil =>
      intro rest _ h2
      cases rest with
      | nil => exact ⟨rfl, rfl⟩
      | cons c t =>
          have hc : p c = false := h2 c rfl
          simp [List.takeWhile, List.dropWhile, hc]
  | cons d ds ih =>
      intro rest h1 h2
      have hd : p d = true := h1 d (by simp)
      have h1' : ∀ c ∈ ds, p c = true := fun c hc => h1 c (by simp [hc])
      have ih' := ih rest h1' h2
      simp [List.takeWhile, List.dropWhile, hd, ih'.1, ih'.2]

/-- A suffix that decomposes as the pattern demands makes tryAt succeed
with exactly the digit run of the decomposition. -/
theorem tryAt_of_decomp (ds rest : List Char)
    (hlen : 6 ≤ ds.length)
    (hdig : ∀ c ∈ ds, Char.isDigit c = true)
    (hbound : rest = [] ∨ ∃ c' rest', rest = c' :: rest' ∧
      (c' = '/' ∨ c' = '?' ∨ (c' = '\n' ∧ rest' = []))) :
    tryAt ('/' :: (ds ++ rest)) = some ds := by
  have hhead : ∀ c, rest.head? = some c → Char.isDigit c = false := by
    intro c hc
    rcases hbound with h | ⟨c', rest', hr, hor⟩
    · subst h; simp at hc
    · subst hr
      simp at hc
      subst hc
      rcases hor with h | h | ⟨h, hr'⟩ <;> subst h <;> decide
  have htw := takeWhile_append_all Char.isDigit ds rest hdig hhead
  have hbOk : boundaryOk rest = true := by
    rcases hbound with h | ⟨c', rest', hr, hor⟩
    · subst h; rfl
    · subst hr
      rcases hor with h | h | ⟨h, hr'⟩
      · subst h; rfl
      · subst h; rfl
      · subst h; subst hr'; rfl
  simp only [tryAt]
  rw [htw.1, htw.2]
  simp [hlen, hbOk]

/-- A successful tryAt at position i yields a declarative match there. -/
theorem goodAt_of_tryAt (cs : List Char) (i : Nat) (ds : List Char)
    (h : tryAt (cs.drop i) = some ds) : goodAt cs i := by
  cases hd : cs.drop i with
  | nil => rw [hd] at h; simp [tryAt] at h
  | cons c rest =>
      rw [hd] at h
      simp only [tryAt] at h
      split at h
      case isTrue hcond =>
        obtain ⟨hc, hlen, hb⟩ := hcond
        subst hc
        refine ⟨rest.takeWhile Char.isDigit, rest.dropWhile Char.isDigit,
          ?_, hlen, ?_, ?_⟩
        · rw [hd, List.takeWhile_append_dropWhile]
        · intro c hc
          exact List.mem_takeWhile_imp hc
        · cases hdw : rest.dropWhile Char.isDigit with
          | nil => exact Or.inl rfl
          | cons c' rest' =>
              rw [hdw] at hb
              simp only [boundaryOk, Bool.or_eq_true, Bool.and_eq_true,
                beq_iff_eq, List.isEmpty_iff] at hb
              exact Or.inr ⟨c', rest', rfl, or_assoc.mp hb⟩
      case isFalse => exact absurd h (by simp)

/-- Where no declarative match exists, tryAt fails. -/
theorem tryAt_none_of_not_goodAt (cs : List Char) (i : Nat)
    (h : ¬ goodAt cs i) : tryAt (cs.drop i) = none := by
  cases htry : tryAt (cs.drop i) with
  | none => rfl
  | some ds => exact absurd (goodAt_of_tryAt cs i ds htry) h

/-- The scanner returns the match of the first succeeding position. -/
theorem scanFirst_eq_some : ∀ (cs : List Char) (i : Nat) (ds : List Char),
    (∀ j, j < i → tryAt (cs.drop j) = none) → tryAt (cs.drop i) = some ds →
    scanFirst cs = some ds := by
  intro cs
  induction cs with
  | nil =>
      intro i ds _ hi
      rw [List.drop_nil] at hi
      simp [tryAt] at hi
  | cons c t ih =>
      intro i ds hfirst hi
      cases i with
      | zero =>
          rw [List.drop_zero] at hi
          simp only [scanFirst, hi]
      | succ i' =>
          have h0 : tryAt (c :: t) = none := by
            have h := hfirst 0 (Nat.succ_pos i')
            rwa [List.drop_zero] at h
          simp only [scanFirst, h0]
          exact ih i' ds (fun j hj => hfirst (j + 1) (Nat.succ_lt_succ hj)) hi

/-- The scanner fails when every position fails. -/
theorem scanFirst_eq_none : ∀ (cs : List Char),
    (∀ j, tryAt (cs.drop j) = none) → scanFirst cs = none := by
  intro cs
  induction cs with
  | nil => intro _; rfl
  | cons c t ih =>
      intro h
      have h0 := h 0
      rw [List.drop_zero] at h0
      simp only [scanFirst, h0]
      exact ih (fun j => h (j + 1))

/-- A failing scan means every position fails. -/
theorem scanFirst_none_forall : ∀ (cs : List Char), scanFirst cs = none →
    ∀ j, tryAt (cs.drop j) = none := by
  intro cs
  induction cs with
  | nil => intro _ j; rw [List.drop_nil]; rfl
  | cons c t ih =>
      intro h j
      have h0 : tryAt (c :: t) = none := by
        cases htry : tryAt (c :: t) with
        | none => rfl
        | some ds =>
            simp only [scanFirst, htry] at h
            exact Option.noConfusion h
      cases j with
      | zero => rw [List.drop_zero]; exact h0
      | succ j' =>
          have ht : scanFirst t = none := by
            simp only [scanFirst, h0] at h
            exact h
          exact ih ht j'

/-- A declarative match at a position makes tryAt succeed there. -/
theorem tryAt_ne_none_of_goodAt (cs : List Char) (i : Nat)
    (h : goodAt cs i) : tryAt (cs.drop i) ≠ none := by
  obtain ⟨ds, rest, hdec, hlen, hdig, hbound⟩ := h
  rw [hdec, tryAt_of_decomp ds rest hlen hdig hbound]
  simp

/-- A failing scan excludes every declarative match. -/
theorem no_goodAt_of_scanFirst_none (cs : List Char)
    (h : scanFirst cs = none) : ∀ i, ¬ goodAt cs i :=
  fun i hg => tryAt_ne_none_of_goodAt cs i hg (scanFirst_none_forall cs h i)

/-- C8: a purely numeric input string is parsed directly as the
identifier, that is extract_id agrees with the direct integer parse. -/
theorem extract_id_numeric (s : String) (h : py_isdigit s = true) :
    extract_id s = Except.ok (parseDigits s.data) := by
  simp [extract_id, h]

theorem extract_id_numeric_witness :
    py_isdigit "1234567" = true ∧ extract_id "1234567" = Except.ok 1234567 := by
  refine ⟨by decide, ?_⟩
  have h := extract_id_numeric "1234567" (by decide)
  have h2 : parseDigits ("1234567").data = 1234567 := by decide
  rw [h, h2]

/-- C2 counterexample: the run 123456 in this input is bounded on the
left by a question mark and on the right by the end of the string, so
the claim as stated demands the value 123456, yet extract_id rejects
the input, because the pattern requires a slash on the left. -/
theorem extract_id_boundary_cex :
    extract_id "a?123456" = Except.error invalidIdMsg ∧
    py_isdigit "a?123456" = false ∧
    ("a?123456").data = 'a' :: '?' :: ("123456").data ∧
    (∀ c ∈ ("123456").data, Char.isDigit c = true) ∧
    6 ≤ ("123456").data.length := by
  refine ⟨by decide, by decide, by decide, by decide, by decide⟩

/-- C2 amended: for a non numeric input, a run of at least six digits
that is immediately preceded by a slash and followed by a slash, a
question mark or the end of the string, at the leftmost position where
the pattern matches, is returned parsed as an integer. -/
theorem extract_id_url_segment (s : String) (i : Nat) (ds rest : List Char)
    (hnd : py_isdigit s = false)
    (hdec : s.data.drop i = '/' :: (ds ++ rest))
    (hlen : 6 ≤ ds.length)
    (hdig : ∀ c ∈ ds, Char.isDigit c = true)
    (hbound : rest = [] ∨ ∃ c' rest', rest = c' :: rest' ∧ (c' = '/' ∨ c' = '?'))
    (hfirst : ∀ j, j < i → ¬ goodAt s.data j) :
    extract_id s = Except.ok (parseDigits ds) := by
  have hi : tryAt (s.data.drop i) = some ds := by
    rw [hdec]
    refine tryAt_of_decomp ds rest hlen hdig ?_
    rcases hbound with h | ⟨c', rest', hr, hor⟩
    · exact Or.inl h
    · exact Or.inr ⟨c', rest', hr, hor.imp (fun h => h) (fun h => Or.inl h)⟩
  have h0 : ∀ j, j < i → tryAt (s.data.drop j) = none :=
    fun j hj => tryAt_none_of_not_goodAt s.data j (hfirst j hj)
  have hscan := scanFirst_eq_some s.data i ds h0 hi
  simp [extract_id, hnd, hscan]

theorem extract_id_url_segment_witness :
    extract_id "/1234567" = Except.ok 1234567 := by
  have h := extract_id_url_segment "/1234567" 0 (("1234567").data) []
    (by decide) (by decide) (by decide) (by decide) (Or.inl rfl)
    (fun j hj => absurd hj (Nat.not_lt_zero j))
  have h2 : parseDigits (("1234567").data) = 1234567 := by decide
  rw [h, h2]

/-- C3 counterexample: on an input with no qualifying segment the error
is raised with the fixed message, and that message does not contain the
offending input string, against the claim that the message names it. -/
theorem extract_id_message_cex :
    extract_id "abc" = Except.error invalidIdMsg ∧
    hasSub invalidIdMsg.data ("abc").data = false := by
  refine ⟨by decide, by decide⟩

/-- C3 amended: an input that is not purely numeric and admits no match
of the pattern anywhere fails with the ValueError carrying the fixed
message, which does not name the offending input. -/
theorem extract_id_invalid (s : String) (hnd : py_isdigit s = false)
    (hno : ∀ i, ¬ goodAt s.data i) :
    extract_id s = Except.error invalidIdMsg := by
  have h0 : ∀ j, tryAt (s.data.drop j) = none :=
    fun j => tryAt_none_of_not_goodAt s.data j (hno j)
  have hscan := scanFirst_eq_none s.data h0
  simp [extract_id, hnd, hscan]

theorem extract_id_invalid_witness :
    extract_id "abc" = Except.error invalidIdMsg :=
  extract_id_invalid "abc" (by decide)
    (no_goodAt_of_scanFirst_none (("abc").data) (by decide))

/-- The dollar anchor also matches just before a newline that ends the
input, so a digit run followed only by a final newline is accepted, as
in the Python engine. -/
theorem extract_id_accepts_trailing_newline :
    extract_id "abc/123456\n" = Except.ok 123456 := by decide

/-- A chunk opening with three hashes and a space is a subheading. -/
theorem isSubheading_heading (i : Nat) (r : Review) :
    isSubheading (headingChunk i r) = true := rfl

/-- The rating chunk of a review is not a subheading. -/
theorem isSubheading_rating (r : Review) : isSubheading (ratingChunk r) = false := rfl

/-- A reply chunk is not a subheading. -/
theorem isSubheading_reply (s : String) :
    isSubheading ("\n> **Ответ компании:** " ++ s) = false := rfl

/-- The separator chunk is not a subheading. -/
theorem isSubheading_sep : isSubheading "\n---\n" = false := rfl

/-- The title chunk is not a subheading. -/
theorem isSubheading_title (t : String) : isSubheading ("# " ++ t) = false := rfl

/-- The header rating chunk is not a subheading. -/
theorem isSubheading_ratingHeader (t : String) :
    isSubheading ("**Рейтинг:** " ++ t) = false := rfl

/-- The reviews heading chunk is not a subheading. -/
theorem isSubheading_reviewsHeader : isSubheading "## Отзывы\n" = false := rfl

/-- Reply chunks never contribute subheadings. -/
theorem filter_replyPart (a : Option String) :
    (replyPart a).filter isSubheading = [] := by
  match a with
  | none => rfl
  | some s =>
      simp only [replyPart]
      split
      · rfl
      · simp [List.filter_cons, isSubheading_reply]

/-- When the body chunk of a review is not shaped like a subheading,
the chunks of that review contribute exactly its own subheading. -/
theorem filter_reviewChunks (p : Nat × Review)
    (hb : isSubheading (bodyOf p.2.text) = false) :
    (reviewChunks p).filter isSubheading = [headingChunk p.1 p.2] := by
  simp [reviewChunks, List.filter_cons, List.filter_append, isSubheading_heading,
    isSubheading_rating, hb, filter_replyPart, isSubheading_sep]

/-- The header contributes no subheadings. -/
theorem filter_headerChunks (c : Company) :
    (headerChunks c).filter isSubheading = [] := by
  simp [headerChunks, List.filter_cons, isSubheading_title,
    isSubheading_ratingHeader, isSubheading_sep, isSubheading_reviewsHeader]

/-- Subheadings of the rendering loop, in order: one per enumerated
review, carrying its own index and record. -/
theorem filter_renderLoop (v : Bool) (n : Nat) :
    ∀ (rs : List Review) (k : Nat),
      (∀ r ∈ rs, isSubheading (bodyOf r.text) = false) →
      ((renderLoop v n (List.enumFrom k rs)).1).filter isSubheading =
        (List.enumFrom k rs).map (fun p => headingChunk p.1 p.2) := by
  intro rs
  induction rs with
  | nil => intro k _; rfl
  | cons r rs ih =>
      intro k hb
      have hbr : isSubheading (bodyOf r.text) = false := hb r (by simp)
      have hbs : ∀ r' ∈ rs, isSubheading (bodyOf r'.text) = false :=
        fun r' h' => hb r' (by simp [h'])
      simp only [List.enumFrom, renderLoop, List.map]
      rw [List.filter_append, filter_reviewChunks (k, r) hbr, ih (k + 1) hbs]
      rfl

/-- Element lookup in an enumeration: the pair at position m carries
index n plus m and the element at position m. -/
theorem enumFrom_get_eq {α : Type} : ∀ (l : List α) (n m : Nat),
    (List.enumFrom n l).get? m = (l.get? m).map (fun a => (n + m, a)) := by
  intro l
  induction l with
  | nil => intro n m; simp [List.enumFrom]
  | cons a t ih =>
      intro n m
      cases m with
      | zero => simp [List.enumFrom]
      | succ m' =>
          simp only [List.enumFrom, List.get?]
          rw [ih (n + 1) m']
          have h : n + 1 + m' = n + (m' + 1) := by omega
          rw [h]

/-- C1: the subheadings of the rendered document are exactly one per
review, in list order: the filtered subheading list equals the map of
the heading renderer over the enumerated reviews, its length equals the
number of reviews, and the subheading at zero based position i is
rendered from the review at position i with one based index i plus one.
The hypothesis excludes review bodies that themselves begin with the
subheading marker, which would be indistinguishable from headings in
the flat document. -/
theorem build_markdown_order (d : ParseData) (v : Bool)
    (hb : ∀ r ∈ d.company_reviews, isSubheading (bodyOf r.text) = false) :
    (mdChunks d v).filter isSubheading =
      (List.enumFrom 1 d.company_reviews).map (fun p => headingChunk p.1 p.2) ∧
    ((mdChunks d v).filter isSubheading).length = d.company_reviews.length ∧
    ∀ i, ((mdChunks d v).filter isSubheading).get? i =
      (d.company_reviews.get? i).map (fun r => headingChunk (1 + i) r) := by
  have h1 : (mdChunks d v).filter isSubheading =
      (List.enumFrom 1 d.company_reviews).map (fun p => headingChunk p.1 p.2) := by
    unfold mdChunks
    rw [List.filter_append, filter_headerChunks,
      filter_renderLoop v d.company_reviews.length d.company_reviews 1 hb]
    rfl
  refine ⟨h1, ?_, ?_⟩
  · rw [h1, List.length_map, List.enumFrom_length]
  · intro i
    rw [h1, List.get?_map, enumFrom_get_eq]
    cases d.company_reviews.get? i with
    | none => rfl
    | some r => rfl

theorem build_markdown_order_witness :
    (mdChunks (ParseData.mk (Company.mk "Cafe X" "4.5" 10)
      [Review.mk (some "A") none 1700000000 (some "Great") 5 none,
       Review.mk none none 0 none 4 (some "ok")]) false).filter isSubheading =
    (List.enumFrom 1 (ParseData.mk (Company.mk "Cafe X" "4.5" 10)
      [Review.mk (some "A") none 1700000000 (some "Great") 5 none,
       Review.mk none none 0 none 4 (some "ok")]).company_reviews).map
      (fun p => headingChunk p.1 p.2) :=
  (build_markdown_order (ParseData.mk (Company.mk "Cafe X" "4.5" 10)
      [Review.mk (some "A") none 1700000000 (some "Great") 5 none,
       Review.mk none none 0 none 4 (some "ok")]) false (by decide)).1

/-- The chunk component of the rendering loop ignores the verbose flag
and the total count: those feed only the log component. -/
theorem renderLoop_fst_verbose (n1 n2 : Nat) (v1 v2 : Bool) :
    ∀ l : List (Nat × Review), (renderLoop v1 n1 l).1 = (renderLoop v2 n2 l).1 := by
  intro l
  induction l with
  | nil => rfl
  | cons p rest ih =>
      simp only [renderLoop]
      rw [ih]

/-- C9: the rendered document is byte identical across the verbose
settings, the progress widget and the log lines being separate console
output, and the renderer is a pure function of its input. -/
theorem build_markdown_deterministic (d : ParseData) (v1 v2 : Bool) :
    build_markdown d v1 = build_markdown d v2 ∧
    build_markdown d v1 = build_markdown d v1 := by
  refine ⟨?_, rfl⟩
  unfold build_markdown mdChunks
  rw [renderLoop_fst_verbose d.company_reviews.length d.company_reviews.length v1 v2]

/-- C5: an absent or empty review text renders as the explicit no-text
placeholder, which sits at its fixed position inside the review block,
never as a blank or missing body chunk. -/
theorem bodyOf_placeholder (i : Nat) (r : Review)
    (h : r.text = none ∨ r.text = some "") :
    bodyOf r.text = noText ∧ (reviewChunks (i, r)).get? 2 = some noText := by
  have hb : bodyOf r.text = noText := by
    rcases h with h | h <;> rw [h] <;> rfl
  refine ⟨hb, ?_⟩
  simp [reviewChunks, List.get?, hb]

theorem bodyOf_placeholder_witness :
    bodyOf (Review.mk (some "A") none 0 none 5 none).text = noText ∧
    (reviewChunks (1, Review.mk (some "A") none 0 none 5 none)).get? 2 = some noText :=
  bodyOf_placeholder 1 (Review.mk (some "A") none 0 none 5 none) (Or.inl rfl)

/-- C4 counterexample: with the author name absent the subheading holds
the Python string of None, and the whole document coincides with the
one for an author literally named None, so no designated fallback
placeholder marks the absence. -/
theorem missing_name_cex :
    headingChunk 1 (Review.mk none none 0 (some "ok") 5 none) =
      "### 1. None — 01.01.1970" ∧
    build_markdown (ParseData.mk (Company.mk "C" "4.5" 10)
        [Review.mk none none 0 (some "ok") 5 none]) false =
      build_markdown (ParseData.mk (Company.mk "C" "4.5" 10)
        [Review.mk (some "None") none 0 (some "ok") 5 none]) false := by
  refine ⟨by decide, by decide⟩

/-- C4 amended: when the author name is absent the renderer is total
and the subheading carries the literal text None in the author
position, identically to an author whose name is the string None. -/
theorem missing_name_renders_none (i : Nat) (r : Review) (h : r.name = none) :
    headingChunk i r =
      "### " ++ (toString i ++ (". " ++ ("None" ++ (" — " ++ fmtDate r.date)))) ∧
    headingChunk i r =
      headingChunk i (Review.mk (some "None") r.icon_href r.date r.text r.stars r.answer) := by
  constructor
  · simp [headingChunk, pyStr, h]
  · simp [headingChunk, pyStr, h]

theorem missing_name_witness :
    headingChunk 3 (Review.mk none none 0 none 2 none) =
      "### " ++ (toString 3 ++ (". " ++ ("None" ++ (" — " ++ fmtDate 0)))) ∧
    headingChunk 3 (Review.mk none none 0 none 2 none) =
      headingChunk 3 (Review.mk (some "None") none 0 none 2 none) :=
  missing_name_renders_none 3 (Review.mk none none 0 none 2 none) rfl

/-- Every character of a list satisfying the predicate makes dropWhile
drop everything. -/
theorem dropWhile_nil_of_all {p : Char → Bool} :
    ∀ l : List Char, (∀ c ∈ l, p c = true) → l.dropWhile p = [] := by
  intro l
  induction l with
  | nil => intro _; rfl
  | cons c t ih =>
      intro h
      have hc : p c = true := h c (by simp)
      simp [List.dropWhile, hc, ih (fun c' h' => h c' (by simp [h']))]

/-- A whitespace only string strips to the empty string. -/
theorem pyStrip_ws (s : String) (h : ∀ c ∈ s.data, Char.isWhitespace c = true) :
    pyStrip s = "" := by
  have hd : s.data.dropWhile Char.isWhitespace = [] := dropWhile_nil_of_all s.data h
  unfold pyStrip trimList
  rw [hd]
  rfl

/-- Degenerate text renders as the placeholder. -/
theorem bodyOf_degen (t : Option String) (h : degenText t) : bodyOf t = noText := by
  rcases h with h | ⟨s, hs, hws⟩
  · rw [h]; rfl
  · rw [hs]
    simp [bodyOf, pyStrip_ws s hws]

/-- Degenerate replies produce no reply chunk. -/
theorem replyPart_degen (a : Option String) (h : degenAns a) : replyPart a = [] := by
  rcases h with h | h <;> rw [h] <;> rfl

/-- Equivalent reviews render to identical chunks. -/
theorem reviewChunks_eqv (k : Nat) (r1 r2 : Review) (h : eqvReview r1 r2) :
    reviewChunks (k, r1) = reviewChunks (k, r2) := by
  obtain ⟨hn, hd, hs, ht, ha⟩ := h
  have h1 : headingChunk k r1 = headingChunk k r2 := by
    simp [headingChunk, hn, hd]
  have h2 : ratingChunk r1 = ratingChunk r2 := by
    simp [ratingChunk, hs]
  have h3 : bodyOf r1.text = bodyOf r2.text := by
    rcases ht with h | ⟨ha1, ha2⟩
    · rw [h]
    · rw [bodyOf_degen _ ha1, bodyOf_degen _ ha2]
  have h4 : replyPart r1.answer = replyPart r2.answer := by
    rcases ha with h | ⟨hb1, hb2⟩
    · rw [h]
    · rw [replyPart_degen _ hb1, replyPart_degen _ hb2]
  simp only [reviewChunks]
  rw [h1, h2, h3, h4]

/-- Pointwise equivalent review lists give identical loop chunks. -/
theorem renderLoop_eqv (v : Bool) (n1 n2 : Nat) :
    ∀ (rs1 rs2 : List Review), List.Forall₂ eqvReview rs1 rs2 → ∀ k,
      (renderLoop v n1 (List.enumFrom k rs1)).1 =
        (renderLoop v n2 (List.enumFrom k rs2)).1 := by
  intro rs1 rs2 h
  induction h with
  | nil => intro k; rfl
  | cons hpair hrest ih =>
      intro k
      simp only [List.enumFrom, renderLoop]
      rw [reviewChunks_eqv k _ _ hpair, ih (k + 1)]

/-- C10: reviews differing only in degenerate text forms, absent or
empty or whitespace only, or in degenerate reply forms, absent or
empty, render to the same document. -/
theorem build_markdown_degenerate (c : Company) (rs1 rs2 : List Review) (v : Bool)
    (h : List.Forall₂ eqvReview rs1 rs2) :
    build_markdown (ParseData.mk c rs1) v = build_markdown (ParseData.mk c rs2) v := by
  unfold build_markdown mdChunks
  rw [renderLoop_eqv v rs1.length rs2.length rs1 rs2 h 1]

theorem build_markdown_degenerate_witness :
    build_markdown (ParseData.mk (Company.mk "C" "4.0" 1)
      [Review.mk (some "A") none 0 none 5 none]) false =
    build_markdown (ParseData.mk (Company.mk "C" "4.0" 1)
      [Review.mk (some "A") none 0 (some " ") 5 (some "")]) false :=
  build_markdown_degenerate (Company.mk "C" "4.0" 1)
    [Review.mk (some "A") none 0 none 5 none]
    [Review.mk (some "A") none 0 (some " ") 5 (some "")] false
    (List.Forall₂.cons
      ⟨rfl, rfl, rfl,
        Or.inr ⟨Or.inl rfl, Or.inr ⟨" ", rfl, by decide⟩⟩,
        Or.inr ⟨Or.inl rfl, Or.inr rfl⟩⟩
      List.Forall₂.nil)

/-- A path is among its own prefixes. -/
theorem self_mem_prefixesOf (q : List String) : q ∈ prefixesOf q := by
  unfold prefixesOf
  refine List.mem_map.mpr ⟨q.length, ?_, List.take_length q⟩
  simp [List.mem_range]

/-- After a recursive mkdir the directory exists. -/
theorem mem_dirs_mkdirParents (fs : FS) (q : List String) :
    q ∈ (mkdirParents fs q).dirs := by
  unfold mkdirParents
  exact List.mem_append.mpr (Or.inr (self_mem_prefixesOf q))

/-- The directory test reflects membership in the directory set. -/
theorem isDir_iff (fs : FS) (p : List String) : isDir fs p = true ↔ p ∈ fs.dirs := by
  simp [isDir]

/-- C6: output resolution.  An absent argument resolves to the default
file under the current directory with the state untouched; an argument
naming an existing directory resolves to that directory joined with the
default file name; any other argument resolves to itself expanded and
absolutized; and in every case the parent directory of the resolved
path exists in the resulting state, the current directory being assumed
to exist. -/
theorem validate_output_spec (arg : Option String) (company_id : Nat) (fs : FS)
    (hcwd : fs.cwd ∈ fs.dirs) :
    (arg = none →
      (_validate_output arg company_id fs).1 = fs.cwd ++ [fileName company_id] ∧
      (_validate_output arg company_id fs).2 = fs) ∧
    (∀ s, arg = some s → s ≠ "" → isDir fs (resolveArg fs s) = true →
      (_validate_output arg company_id fs).1 = resolveArg fs s ++ [fileName company_id]) ∧
    (∀ s, arg = some s → s ≠ "" → isDir fs (resolveArg fs s) = false →
      (_validate_output arg company_id fs).1 = resolveArg fs s) ∧
    ((_validate_output arg company_id fs).1).dropLast ∈
      ((_validate_output arg company_id fs).2).dirs := by
  cases arg with
  | none =>
      refine ⟨fun _ => ⟨rfl, rfl⟩, fun s h => absurd h (by simp),
        fun s h => absurd h (by simp), ?_⟩
      show (fs.cwd ++ [fileName company_id]).dropLast ∈ fs.dirs
      rw [List.dropLast_concat]
      exact hcwd
  | some s =>
      by_cases hs : s = ""
      · subst hs
        refine ⟨fun h => absurd h (by simp),
          fun s' h1 h2 => absurd (Option.some.inj h1).symm h2,
          fun s' h1 h2 => absurd (Option.some.inj h1).symm h2, ?_⟩
        have hval : _validate_output (some "") company_id fs =
            (fs.cwd ++ [fileName company_id], fs) := by
          simp [_validate_output]
        rw [hval]
        show (fs.cwd ++ [fileName company_id]).dropLast ∈ fs.dirs
        rw [List.dropLast_concat]
        exact hcwd
      · have hval : _validate_output (some s) company_id fs =
            (if isDir fs (resolveArg fs s) = true
              then resolveArg fs s ++ [fileName company_id] else resolveArg fs s,
             if isDir fs ((if isDir fs (resolveArg fs s) = true
                then resolveArg fs s ++ [fileName company_id]
                else resolveArg fs s).dropLast) = true
              then fs
              else mkdirParents fs ((if isDir fs (resolveArg fs s) = true
                then resolveArg fs s ++ [fileName company_id]
                else resolveArg fs s).dropLast)) := by
          simp only [_validate_output, if_neg hs]
        refine ⟨fun h => absurd h (by simp), ?_, ?_, ?_⟩
        · intro s' h1 h2 hdir
          cases Option.some.inj h1
          rw [hval]
          simp only [if_pos hdir]
        · intro s' h1 h2 hdir
          cases Option.some.inj h1
          rw [hval]
          simp only [hdir]
          rfl
        · rw [hval]
          by_cases hdir : isDir fs (resolveArg fs s) = true
          · have hmem : resolveArg fs s ∈ fs.dirs := (isDir_iff fs _).mp hdir
            simp only [if_pos hdir, List.dropLast_concat]
            exact hmem
          · simp only [if_neg hdir]
            by_cases hpar : isDir fs ((resolveArg fs s).dropLast) = true
            · rw [if_pos hpar]
              exact (isDir_iff fs _).mp hpar
            · rw [if_neg hpar]
              exact mem_dirs_mkdirParents fs _

theorem validate_output_spec_witness :
    (_validate_output (some "out") 42
      (FS.mk ["home", "u"] ["home", "u"]
        [[], ["home"], ["home", "u"], ["home", "u", "out"]])).1 =
    resolveArg (FS.mk ["home", "u"] ["home", "u"]
        [[], ["home"], ["home", "u"], ["home", "u", "out"]]) "out" ++ [fileName 42] :=
  ((validate_output_spec (some "out") 42
      (FS.mk ["home", "u"] ["home", "u"]
        [[], ["home"], ["home", "u"], ["home", "u", "out"]])
      (by decide)).2.1) "out" rfl (by decide) (by decide)

/-- C7: a user interrupt during the blocking fetch produces the
distinct cancellation message as the exit message, no file is written,
the filesystem is untouched, and that message is nonempty and differs
from the invalid identifier exit text. -/
theorem interrupted_writes_nothing (outputArg : Option String) (verbose : Bool)
    (company_id : Nat) (fs : FS) :
    (runAfterExtract FetchResult.interrupted outputArg verbose company_id fs).written =
      none ∧
    (runAfterExtract FetchResult.interrupted outputArg verbose company_id fs).exitMessage =
      some cancelMsg ∧
    (runAfterExtract FetchResult.interrupted outputArg verbose company_id fs).fsAfter = fs ∧
    cancelMsg ≠ "" ∧ cancelMsg ≠ "Ошибка: " ++ invalidIdMsg :=
  ⟨rfl, rfl, rfl, by decide, by decide⟩
